import Mathlib

/-
Verification of the colour-swatch composition and layout engine
(Swatch.py).  The model embeds the arithmetic of the source over ℚ
(exact rational arithmetic) and the integer sweep logic over ℤ.
-/

/-- A CMYK quadruple.  Components are rationals; depending on context they
are either percentages in [0,100] or base weights in [0,1]. -/
@[ext]
structure CMYK where
  c : ℚ
  m : ℚ
  y : ℚ
  k : ℚ
  deriving DecidableEq, Repr

/-- Constant MM_TO_POINTS from the source. -/
def MM_TO_POINTS : ℚ := 2.83464567

/-- Constant BOX_AREA_HORIZ_MARGIN_TOTAL from the source. -/
def BOX_AREA_HORIZ_MARGIN_TOTAL : ℚ := 198.425197

/-- Constant BOX_AREA_VERT_MARGIN_TOTAL from the source. -/
def BOX_AREA_VERT_MARGIN_TOTAL : ℚ := 198.425197

/-- Constant X_REF_START_OFFSET from the source. -/
def X_REF_START_OFFSET : ℚ := 42.519685

/-- Constant Y_REF_START_OFFSET from the source. -/
def Y_REF_START_OFFSET : ℚ := 42.519685

/-- Constant BOX_SPACING from the source. -/
def BOX_SPACING : ℚ := 11.3385827

/-- The seven named channels of the palette. -/
inductive Channel where
  | Cyan | Magenta | Yellow | Black | Orange | Violet | Grey
  deriving DecidableEq, Repr

/-- The CMYK_DEFINITIONS table from the source. -/
def CMYK_DEFINITIONS : Channel → CMYK
  | .Cyan    => ⟨1, 0, 0, 0⟩
  | .Magenta => ⟨0, 1, 0, 0⟩
  | .Yellow  => ⟨0, 0, 1, 0⟩
  | .Black   => ⟨0, 0, 0, 1⟩
  | .Orange  => ⟨0, 0.7, 0.7, 0⟩
  | .Violet  => ⟨0.7, 0.7, 0, 0⟩
  | .Grey    => ⟨0, 0, 0, 0.7⟩

/-- The overprint_layer function from the source: additive layering of a
tinted base onto a current CMYK-percent quadruple, each component capped
at 100.  add_i = base_i * (tint/100) * 100, new_i = min(100, cur_i + add_i). -/
def overprint_layer (current layer_base : CMYK) (layer_tint : ℚ) : CMYK :=
  let tint_factor := layer_tint / 100
  { c := min 100 (current.c + layer_base.c * tint_factor * 100)
    m := min 100 (current.m + layer_base.m * tint_factor * 100)
    y := min 100 (current.y + layer_base.y * tint_factor * 100)
    k := min 100 (current.k + layer_base.k * tint_factor * 100) }

/-- Componentwise membership of a CMYK quadruple in an interval. -/
def CMYK.inRange (q : CMYK) (lo hi : ℚ) : Prop :=
  lo ≤ q.c ∧ q.c ≤ hi ∧ lo ≤ q.m ∧ q.m ≤ hi ∧
  lo ≤ q.y ∧ q.y ≤ hi ∧ lo ≤ q.k ∧ q.k ≤ hi

instance (q : CMYK) (lo hi : ℚ) : Decidable (q.inRange lo hi) := by
  unfold CMYK.inRange; infer_instance

/-- One component of the overprint update stays inside [0,100]. -/
lemma overprint_component_bounds (x b t : ℚ) (hx0 : 0 ≤ x) (hb0 : 0 ≤ b)
    (ht0 : 0 ≤ t) : 0 ≤ min 100 (x + b * (t / 100) * 100) ∧
      min 100 (x + b * (t / 100) * 100) ≤ 100 := by
  constructor
  · have hbt : 0 ≤ b * (t / 100) * 100 := by positivity
    have : (0 : ℚ) ≤ x + b * (t / 100) * 100 := by linarith
    exact le_min (by norm_num) this
  · exact min_le_left _ _

/-- C1: for current in [0,100]^4, base in [0,1]^4 and tint in [0,100],
every component of the result of overprint_layer lies in [0,100]. -/
theorem overprint_layer_saturates (cur base : CMYK) (tint : ℚ)
    (hcur : cur.inRange 0 100) (hbase : base.inRange 0 1)
    (ht0 : 0 ≤ tint) (_ht1 : tint ≤ 100) :
    (overprint_layer cur base tint).inRange 0 100 := by
  obtain ⟨h1, _, h2, _, h3, _, h4, _⟩ := hcur
  obtain ⟨b1, _, b2, _, b3, _, b4, _⟩ := hbase
  refine ⟨?_, ?_, ?_, ?_, ?_, ?_, ?_, ?_⟩
  · exact (overprint_component_bounds cur.c base.c tint h1 b1 ht0).1
  · exact (overprint_component_bounds cur.c base.c tint h1 b1 ht0).2
  · exact (overprint_component_bounds cur.m base.m tint h2 b2 ht0).1
  · exact (overprint_component_bounds cur.m base.m tint h2 b2 ht0).2
  · exact (overprint_component_bounds cur.y base.y tint h3 b3 ht0).1
  · exact (overprint_component_bounds cur.y base.y tint h3 b3 ht0).2
  · exact (overprint_component_bounds cur.k base.k tint h4 b4 ht0).1
  · exact (overprint_component_bounds cur.k base.k tint h4 b4 ht0).2

/-- Witness for C1 at a concrete input. -/
theorem overprint_layer_saturates_witness :
    (overprint_layer ⟨40, 0, 30, 100⟩ ⟨0, 0.7, 0.7, 0⟩ 50).inRange 0 100 :=
  overprint_layer_saturates ⟨40, 0, 30, 100⟩ ⟨0, 0.7, 0.7, 0⟩ 50
    (by norm_num [CMYK.inRange]) (by norm_num [CMYK.inRange])
    (by norm_num) (by norm_num)

/-- Derived box width from the source: (W - horizontal margin total) / 11. -/
def box_width (W : ℚ) : ℚ := (W - BOX_AREA_HORIZ_MARGIN_TOTAL) / 11

/-- Derived box height from the source: (H - vertical margin total) / 11. -/
def box_height (H : ℚ) : ℚ := (H - BOX_AREA_VERT_MARGIN_TOTAL) / 11

/-- C6: the grid tiles the page exactly: 11 boxes, 10 gaps and the two
42.519685 offsets sum to the document dimension, because
10 * BOX_SPACING + 2 * 42.519685 equals the 198.425197 margin total;
the same identity holds for width and height. -/
theorem grid_tiling_exact (W H : ℚ) :
    10 * BOX_SPACING + 2 * X_REF_START_OFFSET = BOX_AREA_HORIZ_MARGIN_TOTAL ∧
    11 * box_width W + 10 * BOX_SPACING + 2 * X_REF_START_OFFSET = W ∧
    11 * box_height H + 10 * BOX_SPACING + 2 * Y_REF_START_OFFSET = H := by
  refine ⟨by norm_num [BOX_SPACING, X_REF_START_OFFSET, BOX_AREA_HORIZ_MARGIN_TOTAL], ?_, ?_⟩
  · simp only [box_width, BOX_SPACING, X_REF_START_OFFSET, BOX_AREA_HORIZ_MARGIN_TOTAL]
    ring_nf
  · simp only [box_height, BOX_SPACING, Y_REF_START_OFFSET, BOX_AREA_VERT_MARGIN_TOTAL]
    ring_nf

/-- Componentwise non-negativity of a CMYK quadruple. -/
def CMYK.nonneg (q : CMYK) : Prop :=
  0 ≤ q.c ∧ 0 ≤ q.m ∧ 0 ≤ q.y ∧ 0 ≤ q.k

/-- The direct per-component update the source applies for fixed process
colours: Cyan, Magenta, Yellow, Black each add their tint to the single
corresponding component, capped at 100; other channels are untouched by
this branch. -/
def direct_process_update (ch : Channel) (cur : CMYK) (tint : ℚ) : CMYK :=
  match ch with
  | .Cyan    => { cur with c := min 100 (cur.c + tint) }
  | .Magenta => { cur with m := min 100 (cur.m + tint) }
  | .Yellow  => { cur with y := min 100 (cur.y + tint) }
  | .Black   => { cur with k := min 100 (cur.k + tint) }
  | _        => cur

/-- C9: for a pure process channel, a current quadruple in [0,100]^4 and a
tint in (0,100], the direct single-component update agrees with
overprint_layer applied to that channel's base at that tint. -/
theorem direct_update_eq_overprint (ch : Channel) (cur : CMYK) (tint : ℚ)
    (hch : ch = .Cyan ∨ ch = .Magenta ∨ ch = .Yellow ∨ ch = .Black)
    (hcur : cur.inRange 0 100) (_ht0 : 0 < tint) (_ht1 : tint ≤ 100) :
    direct_process_update ch cur tint
      = overprint_layer cur (CMYK_DEFINITIONS ch) tint := by
  obtain ⟨_, h1, _, h2, _, h3, _, h4⟩ := hcur
  have htf : tint / 100 * 100 = tint := div_mul_cancel₀ _ (by norm_num)
  rcases hch with h | h | h | h <;> subst h <;>
    simp only [direct_process_update, overprint_layer, CMYK_DEFINITIONS] <;>
    ext <;>
    simp [htf, min_eq_right, h1, h2, h3, h4]

/-- Witness for C9 at a concrete input. -/
theorem direct_update_eq_overprint_witness :
    direct_process_update Channel.Yellow ⟨10, 20, 95, 0⟩ 40
      = overprint_layer ⟨10, 20, 95, 0⟩ (CMYK_DEFINITIONS Channel.Yellow) 40 :=
  direct_update_eq_overprint Channel.Yellow ⟨10, 20, 95, 0⟩ 40
    (by simp) (by norm_num [CMYK.inRange]) (by norm_num) (by norm_num)

/-- Saturating addition at 100 of two non-negative amounts commutes. -/
lemma min100_add_comm (x a b : ℚ) (ha : 0 ≤ a) (hb : 0 ≤ b) :
    min 100 (min 100 (x + a) + b) = min 100 (min 100 (x + b) + a) := by
  simp only [min_def]
  split_ifs <;> linarith

/-- C10: overprint_layer applications with non-negative bases and tints
commute: layer order does not affect the final cell colour. -/
theorem overprint_layer_comm (cur b1 b2 : CMYK) (t1 t2 : ℚ)
    (_hcur : cur.nonneg) (hb1 : b1.nonneg) (hb2 : b2.nonneg)
    (ht1 : 0 ≤ t1) (ht2 : 0 ≤ t2) :
    overprint_layer (overprint_layer cur b1 t1) b2 t2
      = overprint_layer (overprint_layer cur b2 t2) b1 t1 := by
  obtain ⟨p1, p2, p3, p4⟩ := hb1
  obtain ⟨q1, q2, q3, q4⟩ := hb2
  simp only [overprint_layer]
  ext
  · exact min100_add_comm cur.c _ _ (by positivity) (by positivity)
  · exact min100_add_comm cur.m _ _ (by positivity) (by positivity)
  · exact min100_add_comm cur.y _ _ (by positivity) (by positivity)
  · exact min100_add_comm cur.k _ _ (by positivity) (by positivity)

/-- Witness for C10 at a concrete input. -/
theorem overprint_layer_comm_witness :
    overprint_layer (overprint_layer ⟨0, 0, 30, 0⟩ ⟨1, 0, 0, 0⟩ 60)
        ⟨0.7, 0.7, 0, 0⟩ 80
      = overprint_layer (overprint_layer ⟨0, 0, 30, 0⟩ ⟨0.7, 0.7, 0, 0⟩ 80)
        ⟨1, 0, 0, 0⟩ 60 :=
  overprint_layer_comm ⟨0, 0, 30, 0⟩ ⟨1, 0, 0, 0⟩ ⟨0.7, 0.7, 0, 0⟩ 60 80
    (by norm_num [CMYK.nonneg]) (by norm_num [CMYK.nonneg])
    (by norm_num [CMYK.nonneg]) (by norm_num) (by norm_num)

/-- The start-value computation from the source: start = median - 5*step,
then two sequential (not chained) overrides: if step*5 + median > 100 then
start = 100 - step*10; if median - step*5 < 0 then start = 0. -/
def start_val (median step : ℤ) : ℤ :=
  let s0 := median - step * 5
  let s1 := if step * 5 + median > 100 then 100 - step * 10 else s0
  let s2 := if median - step * 5 < 0 then 0 else s1
  s2

/-- The clamp policy as the spec words it, with explicit precedence:
100 - 10*step when median + 5*step > 100, otherwise 0 when
median - 5*step < 0, otherwise median - 5*step. -/
def start_val_spec (median step : ℤ) : ℤ :=
  if median + 5 * step > 100 then 100 - 10 * step
  else if median - 5 * step < 0 then 0
  else median - 5 * step

/-- The per-access defensive clamp from the source: max(0, min(100, v)). -/
def clamp_tint (v : ℤ) : ℤ := max 0 (min 100 v)

/-- The i-th sweep value of a variable axis as read in each cell:
clamp_tint (start + i * step) with start from start_val. -/
def sweep_val (median step : ℤ) (i : ℕ) : ℤ :=
  clamp_tint (start_val median step + i * step)

/-- C2: for median in [0,100] and step in [1,9] the start value computed by
the source coincides with the precedence rule of the spec; in particular
median 85 with step 3 gives 70 and median 65 with step 3 gives 50. -/
theorem start_val_eq_spec (M S : ℤ) (_hM0 : 0 ≤ M) (_hM1 : M ≤ 100)
    (hS1 : 1 ≤ S) (hS9 : S ≤ 9) :
    start_val M S = start_val_spec M S ∧
    start_val 85 3 = 70 ∧ start_val 65 3 = 50 := by
  refine ⟨?_, by decide, by decide⟩
  simp only [start_val, start_val_spec]
  split_ifs <;> omega

/-- Witness for C2 at a concrete input. -/
theorem start_val_eq_spec_witness :
    start_val 85 3 = start_val_spec 85 3 ∧ start_val 85 3 = 70 :=
  ⟨(start_val_eq_spec 85 3 (by decide) (by decide) (by decide) (by decide)).1,
   (start_val_eq_spec 85 3 (by decide) (by decide) (by decide) (by decide)).2.1⟩

/-- C3: for median in [0,100] and step in [1,9], each of the eleven raw
sweep values start + i*step, i = 0..10, already lies in [0,100] after the
start-value clamp policy. -/
theorem sweep_values_in_range (M S : ℤ) (i : ℕ) (_hM0 : 0 ≤ M) (_hM1 : M ≤ 100)
    (hS1 : 1 ≤ S) (hS9 : S ≤ 9) (hi : i ≤ 10) :
    0 ≤ start_val M S + i * S ∧ start_val M S + i * S ≤ 100 := by
  interval_cases i <;>
    (simp only [start_val] ; push_cast ; split_ifs <;> omega)

/-- Witness for C3 at a concrete input. -/
theorem sweep_values_in_range_witness :
    0 ≤ start_val 85 3 + 10 * 3 ∧ start_val 85 3 + 10 * 3 ≤ 100 :=
  sweep_values_in_range 85 3 10 (by decide) (by decide) (by decide)
    (by decide) (by decide)

/-- C4: for median in [0,100] and step in [1,9] the eleven clamped sweep
values are non-decreasing, and each consecutive pair differs by exactly
step unless the clamp at 0 or 100 binds (with these inputs the clamp in
fact never binds, so the difference is always exactly step). -/
theorem sweep_monotone (M S : ℤ) (hM0 : 0 ≤ M) (hM1 : M ≤ 100)
    (hS1 : 1 ≤ S) (hS9 : S ≤ 9) :
    (∀ i j, i ≤ j → j ≤ 10 → sweep_val M S i ≤ sweep_val M S j) ∧
    (∀ i, i < 10 → sweep_val M S (i + 1) = sweep_val M S i + S ∨
      start_val M S + i * S < 0 ∨ 100 < start_val M S + (i + 1) * S) := by
  have step_eq : ∀ i, i < 10 → sweep_val M S (i + 1) = sweep_val M S i + S := by
    intro i hi
    have h1 := sweep_values_in_range M S i hM0 hM1 hS1 hS9 (by omega)
    have h2 := sweep_values_in_range M S (i + 1) hM0 hM1 hS1 hS9 (by omega)
    have hc : ((i : ℤ) + 1) * S = (i : ℤ) * S + S := by ring
    simp only [sweep_val, clamp_tint] at h1 h2 ⊢
    push_cast at h2 ⊢
    rw [hc] at h2 ⊢
    omega
  constructor
  · intro i j hij hj
    induction j with
    | zero => simp at hij; simp [hij]
    | succ n ih =>
      rcases Nat.lt_or_ge i (n + 1) with h | h
      · have hle := ih (by omega) (by omega)
        have := step_eq n (by omega)
        omega
      · have : i = n + 1 := by omega
        simp [this]
  · intro i hi
    exact Or.inl (step_eq i hi)

/-- Witness for C4 at a concrete input. -/
theorem sweep_monotone_witness :
    sweep_val 65 3 0 ≤ sweep_val 65 3 10 ∧
    (sweep_val 65 3 1 = sweep_val 65 3 0 + 3 ∨
      start_val 65 3 + 0 * 3 < 0 ∨ 100 < start_val 65 3 + (0 + 1) * 3) :=
  ⟨(sweep_monotone 65 3 (by decide) (by decide) (by decide) (by decide)).1
      0 10 (by decide) (by decide),
   (sweep_monotone 65 3 (by decide) (by decide) (by decide) (by decide)).2
      0 (by decide)⟩

/-- A per-channel selection: a fixed tint percentage or the variable
marker (the literal v of the source). -/
inductive Sel where
  | fixed (tint : ℤ)
  | var
  deriving DecidableEq, Repr

/-- The selection pass of the source: channels are processed in order;
a channel marked variable is appended to the variable list while fewer
than two variables exist, otherwise its selection is downgraded to a
fixed tint of 0.  Returns the variable channel list (in selection order)
and the post-pass selection list. -/
def processSel (acc : List Channel) :
    List (Channel × Sel) → List Channel × List (Channel × Sel)
  | [] => (acc, [])
  | (ch, Sel.var) :: rest =>
      if acc.length < 2 then
        let r := processSel (acc ++ [ch]) rest
        (r.1, (ch, Sel.var) :: r.2)
      else
        let r := processSel acc rest
        (r.1, (ch, Sel.fixed 0) :: r.2)
  | (ch, Sel.fixed n) :: rest =>
      let r := processSel acc rest
      (r.1, (ch, Sel.fixed n) :: r.2)

/-- The whole selection pass, started with no variable channel chosen. -/
def processSelections (sels : List (Channel × Sel)) :
    List Channel × List (Channel × Sel) :=
  processSel [] sels

/-- The channels marked variable in a selection list, in order. -/
def varsOf (sels : List (Channel × Sel)) : List Channel :=
  sels.filterMap (fun p => if p.2 = Sel.var then some p.1 else none)

/-- Number of selections marked variable in a list. -/
def countVar (sels : List (Channel × Sel)) : ℕ :=
  sels.countP (fun p => p.2 == Sel.var)

/-- Budget-limited marking: the first budget variable selections are kept,
every later variable selection becomes a fixed tint of 0. -/
def markSel (budget : ℕ) : List (Channel × Sel) → List (Channel × Sel)
  | [] => []
  | (ch, Sel.var) :: rest =>
      match budget with
      | 0 => (ch, Sel.fixed 0) :: markSel 0 rest
      | b + 1 => (ch, Sel.var) :: markSel b rest
  | (ch, Sel.fixed n) :: rest => (ch, Sel.fixed n) :: markSel budget rest

/-- processSel computes the first 2 - acc.length variable channels and the
budget-limited marking of the selection list. -/
lemma processSel_eq (sels : List (Channel × Sel)) (acc : List Channel) :
    processSel acc sels
      = (acc ++ (varsOf sels).take (2 - acc.length),
         markSel (2 - acc.length) sels) := by
  induction sels generalizing acc with
  | nil => simp [processSel, varsOf, markSel]
  | cons p rest ih =>
    obtain ⟨ch, s⟩ := p
    cases s with
    | var =>
      by_cases h : acc.length < 2
      · have hb : 2 - acc.length = (2 - (acc.length + 1)) + 1 := by omega
        simp only [processSel, if_pos h, ih (acc ++ [ch])]
        simp only [varsOf, List.filterMap_cons, markSel, hb]
        simp [List.take_succ_cons, varsOf]
      · have hb : 2 - acc.length = 0 := by omega
        simp only [processSel, if_neg h, ih acc, hb]
        simp [markSel, varsOf]
    | fixed n =>
      simp only [processSel, ih acc]
      simp [markSel, varsOf, List.filterMap_cons]

/-- markSel rewrites a variable selection to a fixed tint of 0 whenever at
least budget variable selections precede it. -/
lemma markSel_downgrades (budget : ℕ) (sels : List (Channel × Sel)) (i : ℕ)
    (ch : Channel) (hget : sels[i]? = some (ch, Sel.var))
    (hcount : budget ≤ countVar (sels.take i)) :
    (markSel budget sels)[i]? = some (ch, Sel.fixed 0) := by
  induction sels generalizing budget i with
  | nil => simp at hget
  | cons p rest ih =>
    obtain ⟨c0, s0⟩ := p
    cases i with
    | zero =>
      simp only [List.getElem?_cons_zero, Option.some_inj] at hget
      injection hget with h1 h2
      subst h1
      subst h2
      simp only [List.take_zero, countVar, List.countP_nil,
        Nat.le_zero] at hcount
      subst hcount
      simp [markSel]
    | succ j =>
      simp only [List.getElem?_cons_succ] at hget
      cases s0 with
      | var =>
        have hc : countVar (((c0, Sel.var) :: rest).take (j + 1))
            = countVar (rest.take j) + 1 := by
          simp [countVar, List.take_succ_cons, List.countP_cons]
        cases budget with
        | zero =>
          simpa [markSel] using ih 0 j hget (Nat.zero_le _)
        | succ b =>
          have : b ≤ countVar (rest.take j) := by omega
          simpa [markSel] using ih b j hget this
      | fixed n =>
        have hc : countVar (((c0, Sel.fixed n) :: rest).take (j + 1))
            = countVar (rest.take j) := by
          simp [countVar, List.take_succ_cons, List.countP_cons]
        have : budget ≤ countVar (rest.take j) := by omega
        simpa [markSel] using ih budget j hget this

/-- The selection list of the worked example: Cyan variable, Black
variable, Orange variable, every other channel fixed at 0. -/
def exampleSels : List (Channel × Sel) :=
  [(Channel.Cyan, Sel.var), (Channel.Magenta, Sel.fixed 0),
   (Channel.Yellow, Sel.fixed 0), (Channel.Black, Sel.var),
   (Channel.Orange, Sel.var), (Channel.Violet, Sel.fixed 0),
   (Channel.Grey, Sel.fixed 0)]

/-- C5: for every selection sequence, exactly the first two channels
marked variable (in selection order) become the axes, and every variable
selection with two or more variable selections before it is downgraded to
a fixed tint of 0; in particular marking Cyan, Black and Orange variable
yields axes Cyan (axis 1) and Black (axis 2) with Orange fixed at 0. -/
theorem third_variable_downgrade :
    (∀ sels : List (Channel × Sel),
      (processSelections sels).1 = (varsOf sels).take 2) ∧
    (∀ (sels : List (Channel × Sel)) (i : ℕ) (ch : Channel),
      sels[i]? = some (ch, Sel.var) → 2 ≤ countVar (sels.take i) →
      (processSelections sels).2[i]? = some (ch, Sel.fixed 0)) ∧
    (processSelections exampleSels).1 = [Channel.Cyan, Channel.Black] ∧
    (processSelections exampleSels).2[4]? =
      some (Channel.Orange, Sel.fixed 0) := by
  have hmain : ∀ sels : List (Channel × Sel),
      processSelections sels = ((varsOf sels).take 2, markSel 2 sels) := by
    intro sels
    simpa using processSel_eq sels []
  refine ⟨fun sels => by rw [hmain], ?_, ?_, ?_⟩
  · intro sels i ch hget hcount
    rw [hmain]
    exact markSel_downgrades 2 sels i ch hget hcount
  · rw [hmain]; decide
  · rw [hmain]; decide

/-- Witness for C5 at a concrete input. -/
theorem third_variable_downgrade_witness :
    (processSelections exampleSels).2[4]? =
      some (Channel.Orange, Sel.fixed 0) :=
  third_variable_downgrade.2.1 exampleSels 4 Channel.Orange
    (by decide) (by decide)

/-- Document dimension in points from a millimetre input, as in the
source: docmm * MM_TO_POINTS. -/
def docpts (docmm : ℤ) : ℚ := docmm * MM_TO_POINTS

/-- A fill-rectangle drawing command (position, size). -/
structure RectCmd where
  x : ℚ
  y : ℚ
  w : ℚ
  h : ℚ
  deriving DecidableEq, Repr

/-- Bottom-left x of the box in column i_col, from the source. -/
def box_x_bl (W : ℚ) (i_col : ℕ) : ℚ :=
  X_REF_START_OFFSET + i_col * (box_width W + BOX_SPACING)

/-- Bottom-left y of the box in row k_row, from the source. -/
def box_y_bl (H : ℚ) (k_row : ℕ) : ℚ :=
  Y_REF_START_OFFSET + k_row * (box_height H + BOX_SPACING)

/-- The 121 rectangle commands the drawing loop emits, row-major as in
the source; emitted unconditionally, with no guard on the sign of the
box dimensions. -/
def rectCommands (W H : ℚ) : List RectCmd :=
  (List.range 11).flatMap (fun k_row =>
    (List.range 11).map (fun i_col =>
      ⟨box_x_bl W i_col, box_y_bl H k_row, box_width W, box_height H⟩))

/-- C7 evaluation: for a 1 mm wide document the derived box width is
negative, yet the drawing loop still emits all 121 rectangle commands,
each with that negative width; no error path exists. -/
theorem degenerate_geometry_still_renders :
    box_width (docpts 1) < 0 ∧
    (rectCommands (docpts 1) (docpts 316)).length = 121 ∧
    ∀ r ∈ rectCommands (docpts 1) (docpts 316), r.w < 0 := by
  have hw : box_width (docpts 1) < 0 := by
    norm_num [box_width, docpts, MM_TO_POINTS, BOX_AREA_HORIZ_MARGIN_TOTAL]
  refine ⟨hw, rfl, ?_⟩
  intro r hr
  simp only [rectCommands, List.mem_flatMap, List.mem_map] at hr
  obtain ⟨k, -, i, -, rfl⟩ := hr
  exact hw

/-- Witness for the C7 evaluation at a concrete member of the command
list. -/
theorem degenerate_geometry_still_renders_witness :
    (RectCmd.mk (box_x_bl (docpts 1) 0) (box_y_bl (docpts 316) 0)
      (box_width (docpts 1)) (box_height (docpts 316))).w < 0 :=
  degenerate_geometry_still_renders.2.2 _ (by
    simp only [rectCommands, List.mem_flatMap, List.mem_map]
    exact ⟨0, by simp, 0, by simp, rfl⟩)

/-- Constant js_y_text_top_start from the source. -/
def js_y_text_top_start : ℚ := 52.519685

/-- Constant font_size_approx from the source. -/
def font_size_approx : ℚ := 8

/-- Top coordinate (top-down convention) of the row r vertical-axis label,
from the source: js_y_text_top_start + r * (box_height + BOX_SPACING). -/
def y_top_for_this_label (H : ℚ) (r : ℕ) : ℚ :=
  js_y_text_top_start + r * (box_height H + BOX_SPACING)

/-- Bottom-up anchor of the row r vertical-axis label, from the source:
docheight - top coordinate. -/
def final_y_rl (H : ℚ) (r : ℕ) : ℚ := H - y_top_for_this_label H r

/-- The baseline actually passed to the text call for the row r
vertical-axis value label: final_y_rl - font_size_approx / 2. -/
def y_label_baseline (H : ℚ) (r : ℕ) : ℚ :=
  final_y_rl H r - font_size_approx / 2

/-- The value printed on the row r vertical-axis label, from the source:
max(0, min(100, start + r * step)). -/
def y_label_value (start step : ℤ) (r : ℕ) : ℤ :=
  clamp_tint (start + r * step)

/-- C8 counterexample: on the default 444 by 316 mm document with the
spec's own axis-2 example (median 85, step 3, hence start 70), row 1
carries a strictly larger label value than row 0 yet its baseline is at a
strictly smaller page y-coordinate, while the grid box of row 1 sits at a
strictly larger y than that of row 0: label values increase downward,
opposite to the sweep direction of the grid rows. -/
theorem y_labels_increase_downward_counterexample :
    y_label_value (start_val 85 3) 3 0 < y_label_value (start_val 85 3) 3 1 ∧
    y_label_baseline (docpts 316) 1 < y_label_baseline (docpts 316) 0 ∧
    box_y_bl (docpts 316) 0 < box_y_bl (docpts 316) 1 := by
  refine ⟨by decide, ?_, ?_⟩
  · norm_num [y_label_baseline, final_y_rl, y_top_for_this_label,
      js_y_text_top_start, font_size_approx, box_height, docpts,
      MM_TO_POINTS, BOX_AREA_VERT_MARGIN_TOTAL, BOX_SPACING]
  · norm_num [box_y_bl, Y_REF_START_OFFSET, box_height, docpts,
      MM_TO_POINTS, BOX_AREA_VERT_MARGIN_TOTAL, BOX_SPACING]

/-- C8 amended: row r's vertical-axis value label baseline is at
H - (52.519685 + r*(boxHeight+spacing)) - 4 as stated, but when
boxHeight + spacing is positive the label values increase downward on the
page: for rows r < r' (step > 0) the label carrying the larger sweep
value has the strictly smaller page y-coordinate, while the grid rows
themselves sweep upward. -/
theorem y_label_placement_amended (H : ℚ) (start step : ℤ) (r r' : ℕ)
    (hrr : r < r') (hbh : 0 < box_height H + BOX_SPACING)
    (hstep : 0 < step) :
    y_label_baseline H r
        = H - (52.519685 + r * (box_height H + BOX_SPACING)) - 4 ∧
    y_label_value start step r ≤ y_label_value start step r' ∧
    y_label_baseline H r' < y_label_baseline H r ∧
    box_y_bl H r < box_y_bl H r' := by
  have hcast : (r : ℚ) < (r' : ℚ) := by exact_mod_cast hrr
  have hmul : (r : ℚ) * (box_height H + BOX_SPACING)
      < (r' : ℚ) * (box_height H + BOX_SPACING) :=
    mul_lt_mul_of_pos_right hcast hbh
  refine ⟨?_, ?_, ?_, ?_⟩
  · simp only [y_label_baseline, final_y_rl, y_top_for_this_label,
      js_y_text_top_start, font_size_approx]
    ring
  · have hz : (r : ℤ) * step ≤ (r' : ℤ) * step :=
      mul_le_mul_of_nonneg_right (by exact_mod_cast le_of_lt hrr)
        (le_of_lt hstep)
    simp only [y_label_value, clamp_tint]
    omega
  · simp only [y_label_baseline, final_y_rl, y_top_for_this_label]
    linarith
  · simp only [box_y_bl]
    linarith

/-- Witness for the amended C8 statement at a concrete input. -/
theorem y_label_placement_amended_witness :
    y_label_baseline (docpts 316) 0
        = docpts 316 - (52.519685 + 0 * (box_height (docpts 316)
            + BOX_SPACING)) - 4 ∧
    y_label_value 70 3 0 ≤ y_label_value 70 3 1 ∧
    y_label_baseline (docpts 316) 1 < y_label_baseline (docpts 316) 0 ∧
    box_y_bl (docpts 316) 0 < box_y_bl (docpts 316) 1 :=
  y_label_placement_amended (docpts 316) 70 3 0 1 (by decide)
    (by norm_num [box_height, docpts, MM_TO_POINTS,
      BOX_AREA_VERT_MARGIN_TOTAL, BOX_SPACING]) (by decide)
